import Mathlib

/-!
# Shallow embedding of the AG-UI orchestration server (`agui_server.py`)

This file embeds the tool-calling orchestration loop of `agui_server.py`
(the `stream` generator inside `run_agent`, lines 303-489), the validation
and history-mutation preamble of `run_agent` (lines 313-348), and the tool
dispatcher `execute_tool` of `mcp_servers/aws_terraform_server.py`
(lines 729-763), and proves the spec's claims about them.

Modelling conventions:
* The external LLM backend (`llm.invoke`) is a function from the message
  history to `Except String ModelResponse`; `Except.error` models a raised
  exception.
* The MCP tool executor (`aws_mcp.execute_tool` as called from the loop) is
  a function `String → String → Except String ExecResult`; `Except.error`
  models a raised exception (caught by the loop's inner `try`).
* Tool arguments and payloads are kept as opaque strings; `ToolMessage`
  content, which the code stores as `json.dumps(result)`, is kept as the
  structured `ExecResult` value (the serialization is injective, and no
  claim depends on the literal JSON text).
* Python's `while iteration < max_iterations` loop is fuel recursion on
  `max_iterations - iteration`; totality of the Lean function witnesses
  termination of the loop.
-/

namespace Agui

/-- A tool call requested by the model: `tool_call["name"]`,
`tool_call["args"]` (kept opaque), `tool_call["id"]`. -/
structure ToolCall where
  name : String
  args : String
  id : String
deriving Repr, DecidableEq

/-- A normalized model response (`AIMessage`): text content plus the list of
requested tool calls (`response.content`, `response.tool_calls`). -/
structure ModelResponse where
  content : String
  tool_calls : List ToolCall
deriving Repr, DecidableEq

instance : Inhabited ModelResponse := ⟨⟨"", []⟩⟩

/-- A tool execution result dict: `success` flag, optional `error` string,
remaining payload fields collapsed into one opaque string. -/
structure ExecResult where
  success : Bool
  error : Option String
  payload : String
deriving Repr, DecidableEq

/-- Conversation messages, langchain-style: `SystemMessage`, `HumanMessage`,
`AIMessage` (with tool calls), `ToolMessage` (with the call id it answers). -/
inductive Message where
  | system (content : String)
  | human (content : String)
  | ai (content : String) (tool_calls : List ToolCall)
  | tool (result : ExecResult) (tool_call_id : String)
deriving Repr, DecidableEq

/-- The SSE events yielded by the `stream` generator, by their `type` tag:
`RUN_STARTED`, `TEXT_MESSAGE_START`, `TEXT_MESSAGE_CONTENT` (with `delta`),
`TOOL_RESULT` (with `toolName` and `result`), `TEXT_MESSAGE_END`,
`RUN_FINISHED`, `RUN_ERROR` (with `message`). -/
inductive Event where
  | runStarted
  | textMessageStart
  | textMessageContent (delta : String)
  | toolResult (toolName : String) (result : ExecResult)
  | textMessageEnd
  | runFinished
  | runError (message : String)
deriving Repr, DecidableEq

/-- The external collaborators of one run: the model backend and the MCP
tool executor (`aws_mcp` truthiness as `mcpAvailable`). -/
structure Env where
  llm : List Message → Except String ModelResponse
  mcpAvailable : Bool
  exec : String → String → Except String ExecResult

/-- Python `str.strip()` whitespace characters (the ASCII ones). -/
def isPySpace (c : Char) : Bool :=
  c = ' ' || c = '\t' || c = '\n' || c = '\r' || c = '\x0b' || c = '\x0c'

/-- `not s.strip()` in Python: the string is empty or all-whitespace. -/
def pyStripEmpty (s : String) : Bool :=
  s.data.all isPySpace

/-- The keys of `SUPPORTED_LLMS` in `llm_config.py`. -/
def SUPPORTED_LLMS : List String :=
  ["perplexity", "openai", "gemini", "claude", "ollama"]

/-- The system prompt seeded into an empty thread history
(`agui_server.py` lines 330-339). -/
def systemPrompt : String :=
  "You are a strict AWS Infrastructure Provisioning Agent. " ++
  "Your main purpose is to interact with AWS through the provided MCP tools. " ++
  "CRITICAL: ALWAYS try to use the 'get_user_permissions' or 'get_infrastructure_state' tools before claiming you lack access or login info. " ++
  "Never assume the user is logged out just because you haven't run a tool yet. " ++
  "If a tool fails with a credential error, then and only then should you ask the user to check their 'CLI Login'. " ++
  "To build infrastructure: 1. Generate the project/config 2. Run terraform_plan 3. Run terraform_apply. " ++
  "If user says 'apply' or 'execute', you MUST call 'terraform_apply' with the correct project name. " ++
  "Be concise and technical. Report tool outputs directly."

/-- The note chunk injected for Perplexity with an MCP server selected
(`agui_server.py` lines 377-383). -/
def perplexityNote : String :=
  "> **Note:** Perplexity (Sonar) may have limited support for dynamic tool calling. If tools aren't being used, try switching to a model like GPT-4o or Gemini.\n\n"

/-- The request body of `POST /api/run` (`RunRequest` in `agui_server.py`).
`model` and `credentialSource` do not influence the embedded behavior and are
kept as opaque optional fields. -/
structure RunRequest where
  message : String
  threadId : String
  provider : String
  model : Option String
  credentialSource : Option String
  mcpServer : String
deriving Repr, DecidableEq

/-- `history[-1]` is a `HumanMessage`. -/
def lastIsHuman (history : List Message) : Bool :=
  match history.getLast? with
  | some (Message.human _) => true
  | _ => false

/-- Lines 343-348: append the user message unless the last message is already
a `HumanMessage`, in which case overwrite that message's content. -/
def submitUser (history : List Message) (msg : String) : List Message :=
  if lastIsHuman history then history.dropLast ++ [Message.human msg]
  else history ++ [Message.human msg]

/-- Lines 329-341: seed an empty history with the system prompt. -/
def seedHistory (history : List Message) : List Message :=
  if history.isEmpty then [Message.system systemPrompt] else history

/-- Outcome of the synchronous part of `run_agent`: either an HTTP error
(status, detail) or the accepted thread id, together with the (possibly
updated) conversation store. The store is modelled as a total function from
thread id to history; an absent key reads as `[]`, matching
`conversation_store.setdefault(thread_id, [])`. -/
structure AgentOutcome where
  status : Except (Nat × String) String
  store : String → List Message

/-- `run_agent` (lines 303-350): validation, thread-id resolution
(`payload.threadId or str(uuid.uuid4())` — `freshId` stands for the freshly
drawn UUID), system-prompt seeding and the user-message append-or-overwrite
policy. The streaming part is modelled separately by `stream`. -/
def run_agent (store : String → List Message) (payload : RunRequest)
    (freshId : String) : AgentOutcome :=
  if pyStripEmpty payload.message then
    ⟨Except.error (400, "Message cannot be empty"), store⟩
  else if !(SUPPORTED_LLMS.contains payload.provider) then
    ⟨Except.error (400, "Unsupported provider"), store⟩
  else
    let tid := if payload.threadId = "" then freshId else payload.threadId
    let h := submitUser (seedHistory (store tid)) payload.message
    ⟨Except.ok tid, fun t => if t = tid then h else store t⟩

/-- Lines 403-431, body of the `for tool_call in response.tool_calls` loop:
handle one tool call, returning the `TOOL_RESULT` events yielded and the
`ToolMessage`s appended for it. The three branches: successful execution
(event + message), a raised exception (message only, recording the error),
and a non-`aws_terraform` MCP selection (message only,
`MCP server ... not found`). -/
def dispatchOne (env : Env) (mcpServer : String) (tc : ToolCall) :
    List Event × List Message :=
  if mcpServer = "aws_terraform" ∧ env.mcpAvailable then
    match env.exec tc.name tc.args with
    | Except.ok result =>
      ([Event.toolResult tc.name result], [Message.tool result tc.id])
    | Except.error e =>
      ([], [Message.tool ⟨false, some e, ""⟩ tc.id])
  else
    ([], [Message.tool ⟨false, some ("MCP server " ++ mcpServer ++ " not found"), ""⟩ tc.id])

/-- Lines 395-431: dispatch one batch of tool calls sequentially, in the
order the model emitted them. -/
def dispatchCalls (env : Env) (mcpServer : String) :
    List ToolCall → List Event × List Message
  | [] => ([], [])
  | tc :: rest =>
    let one := dispatchOne env mcpServer tc
    let others := dispatchCalls env mcpServer rest
    (one.1 ++ others.1, one.2 ++ others.2)

/-- Result of the tool-calling loop: the events yielded inside the loop, the
final history, and the number of `llm.invoke` calls performed; `done` also
carries the last model response (the `response` variable after the loop),
`failed` carries the exception message that escaped to the `except` clause. -/
inductive LoopOut where
  | done (events : List Event) (history : List Message)
      (resp : ModelResponse) (invocations : Nat)
  | failed (events : List Event) (history : List Message)
      (invocations : Nat) (err : String)
deriving Repr, DecidableEq

def LoopOut.events : LoopOut → List Event
  | .done evs _ _ _ => evs
  | .failed evs _ _ _ => evs

def LoopOut.history : LoopOut → List Message
  | .done _ h _ _ => h
  | .failed _ h _ _ => h

def LoopOut.invocations : LoopOut → Nat
  | .done _ _ _ n => n
  | .failed _ _ n _ => n

def LoopOut.finalResp : LoopOut → ModelResponse
  | .done _ _ r _ => r
  | .failed _ _ _ _ => default

def LoopOut.isFailed : LoopOut → Bool
  | .done _ _ _ _ => false
  | .failed _ _ _ _ => true

/-- Lines 384-437: the bounded tool-calling loop. `fuel` is
`max_iterations - iteration` (initially 5), `last` the most recent model
response (irrelevant at the initial call since fuel is positive), `evs` the
events yielded so far inside the loop, `count` the number of `llm.invoke`
calls so far. On fuel exhaustion the loop exits with the last response; on a
response without tool calls it breaks; otherwise it dispatches the batch,
appends the results and re-invokes. -/
def toolLoop (env : Env) (mcpServer : String) :
    Nat → List Message → ModelResponse → List Event → Nat → LoopOut
  | 0, history, last, evs, count => LoopOut.done evs history last count
  | fuel + 1, history, last, evs, count =>
    match env.llm history with
    | Except.error e => LoopOut.failed evs history count e
    | Except.ok response =>
      let history2 := history ++ [Message.ai response.content response.tool_calls]
      if response.tool_calls.isEmpty then
        LoopOut.done evs history2 response (count + 1)
      else
        let d := dispatchCalls env mcpServer response.tool_calls
        toolLoop env mcpServer fuel (history2 ++ d.2) response (evs ++ d.1) (count + 1)

/-- Lines 439-445: the final response text with the empty-text fallbacks. -/
def finalText (resp : ModelResponse) : String :=
  if pyStripEmpty resp.content then
    if resp.tool_calls.isEmpty then "No response generated."
    else "I have initiated the infrastructure changes as requested."
  else resp.content

/-- Lines 450-452: `range(0, len(text), 60)` slicing of the final text into
successive 60-character pieces (Python slices by code point). -/
def chunks60 (l : List Char) : List (List Char) :=
  if h : l = [] then []
  else l.take 60 :: chunks60 (l.drop 60)
termination_by l.length
decreasing_by
  simp only [List.length_drop]
  exact Nat.sub_lt (List.length_pos.mpr h) (by omega)

/-- Lines 377-383: the Perplexity note chunk, emitted only for provider
`perplexity` with an MCP server selected. -/
def noteEvents (payload : RunRequest) : List Event :=
  if payload.provider = "perplexity" ∧ payload.mcpServer ≠ "none" then
    [Event.textMessageContent perplexityNote]
  else []

/-- Lines 352-483: the `stream` generator. Returns the full event sequence
of the run and the final history (the code mutates the shared per-thread
list; the embedding returns it). The `except` clause turns an escaped
exception into a single `RUN_ERROR` event after whatever was already
yielded. -/
def stream (env : Env) (payload : RunRequest) (history : List Message) :
    List Event × List Message :=
  let pre := [Event.runStarted, Event.textMessageStart] ++ noteEvents payload
  match toolLoop env payload.mcpServer 5 history default [] 0 with
  | LoopOut.failed evs hist _ err =>
    (pre ++ evs ++ [Event.runError err], hist)
  | LoopOut.done evs hist resp _ =>
    (pre ++ evs ++
      (chunks60 (finalText resp).data).map (fun p => Event.textMessageContent p.asString) ++
      [Event.textMessageEnd, Event.runFinished], hist)

/-! ## The MCP tool registry (`mcp_servers/aws_terraform_server.py`) -/

/-- The keys of the `handlers` dict in `execute_tool` (lines 745-756). -/
def knownTools : List String :=
  ["create_ec2_instance", "create_s3_bucket", "create_vpc",
   "create_rds_instance", "create_lambda_function", "terraform_plan",
   "terraform_apply", "terraform_destroy", "get_infrastructure_state",
   "get_user_permissions"]

/-- RBAC state of the MCP server: whether `rbac.identity` is set and whether
`rbac.initialize()` would succeed. -/
structure Rbac where
  identity : Bool
  rbacInitOk : Bool

/-- `execute_tool` (lines 729-763): authentication check, then routing by
tool name with the `Unknown tool` fallback; `handler` stands for the
resolved per-tool handler functions. -/
def execute_tool (rbac : Rbac) (handler : String → String → ExecResult)
    (tool_name : String) (parameters : String) : ExecResult :=
  if !rbac.identity && !rbac.rbacInitOk then
    ⟨false, some "User not authenticated. Please ensure you are logged in via AWS CLI and have the correct AWS_PROFILE set.", ""⟩
  else if knownTools.contains tool_name then handler tool_name parameters
  else ⟨false, some ("Unknown tool: " ++ tool_name), ""⟩

/-! ## Helper predicates on events and messages -/

/-- Events allowed between `TEXT_MESSAGE_START` and `TEXT_MESSAGE_END`:
content chunks and tool results. -/
def isMid : Event → Bool
  | Event.textMessageContent _ => true
  | Event.toolResult _ _ => true
  | _ => false

/-- Terminal events of a run. -/
def isTerminal : Event → Bool
  | Event.runFinished => true
  | Event.runError _ => true
  | _ => false

def isRunError : Event → Bool
  | Event.runError _ => true
  | _ => false

def isRunFinished : Event → Bool
  | Event.runFinished => true
  | _ => false

/-- The `delta` fields of the `TEXT_MESSAGE_CONTENT` events, in order. -/
def deltas (evs : List Event) : List String :=
  evs.filterMap fun e =>
    match e with
    | Event.textMessageContent d => some d
    | _ => none

/-- Concatenation of a list of strings, in order. -/
def concatAll : List String → String
  | [] => ""
  | s :: rest => s ++ concatAll rest

def isHumanM : Message → Bool
  | Message.human _ => true
  | _ => false

/-- No two adjacent `true`s in a Boolean trace. -/
def noTwoTrue : List Bool → Bool
  | [] => true
  | [_] => true
  | a :: b :: rest => !(a && b) && noTwoTrue (b :: rest)

/-- No two consecutive `HumanMessage`s in a history. -/
def noConsecutiveHumans (history : List Message) : Bool :=
  noTwoTrue (history.map isHumanM)

/-- The `ExecResult` recorded in the `ToolMessage` appended for one tool
call, covering the three branches of lines 403-431. -/
def callOutcome (env : Env) (mcpServer : String) (tc : ToolCall) : ExecResult :=
  if mcpServer = "aws_terraform" ∧ env.mcpAvailable then
    match env.exec tc.name tc.args with
    | Except.ok r => r
    | Except.error e => ⟨false, some e, ""⟩
  else ⟨false, some ("MCP server " ++ mcpServer ++ " not found"), ""⟩

/-! ## Concrete fixtures used by witnesses and counterexamples -/

/-- A concrete tool call. -/
def cCall : ToolCall := ⟨"create_s3_bucket", "bucket_name=x", "call1"⟩

/-- A tool call naming a tool absent from the registry. -/
def cUnknownCall : ToolCall := ⟨"delete_everything", "", "call9"⟩

/-- A backend whose model always requests a tool call and whose executor
always succeeds. -/
def cEnvAlways : Env :=
  ⟨fun _ => Except.ok ⟨"", [cCall]⟩, true, fun n p => Except.ok ⟨true, none, n ++ ":" ++ p⟩⟩

/-- A backend whose executor raises on every tool call. -/
def cEnvBoom : Env :=
  ⟨fun _ => Except.ok ⟨"", []⟩, true, fun _ _ => Except.error "boom"⟩

/-- A backend whose model requests one tool call on the first invocation and
then returns an empty final answer without tool calls. -/
def cEnvPrior : Env :=
  ⟨fun h => if h.length = 0 then Except.ok ⟨"", [cCall]⟩ else Except.ok ⟨"", []⟩,
   true, fun n p => Except.ok ⟨true, none, n ++ ":" ++ p⟩⟩

/-- A backend whose model immediately returns the final text `Done.`. -/
def cEnvDone : Env :=
  ⟨fun _ => Except.ok ⟨"Done.", []⟩, true, fun _ _ => Except.ok ⟨true, none, ""⟩⟩

/-- A backend whose model raises on every invocation. -/
def cEnvFail : Env :=
  ⟨fun _ => Except.error "rate limit exceeded", true, fun _ _ => Except.ok ⟨true, none, ""⟩⟩

/-- A concrete valid request with the AWS Terraform MCP server selected. -/
def cReq : RunRequest := ⟨"hello", "t1", "openai", none, none, "aws_terraform"⟩

/-- A concrete Perplexity request with the AWS Terraform MCP server. -/
def cReqPerplexity : RunRequest := ⟨"hello", "t1", "perplexity", none, none, "aws_terraform"⟩

/-- A concrete request with a whitespace-only message. -/
def cReqBlank : RunRequest := ⟨" \t\n", "t1", "openai", none, none, "none"⟩

/-- A concrete request with an unsupported provider. -/
def cReqBadProvider : RunRequest := ⟨"hello", "t1", "grok", none, none, "none"⟩

/-- A concrete request with an empty thread id. -/
def cReqNewThread : RunRequest := ⟨"hello", "", "openai", none, none, "none"⟩

/-! ## Lemmas about `dispatchOne` and `dispatchCalls` -/

theorem dispatchOne_snd (env : Env) (mcpServer : String) (tc : ToolCall) :
    (dispatchOne env mcpServer tc).2 =
      [Message.tool (callOutcome env mcpServer tc) tc.id] := by
  unfold dispatchOne callOutcome
  by_cases hm : mcpServer = "aws_terraform" ∧ env.mcpAvailable
  · cases hx : env.exec tc.name tc.args <;> simp [hm, hx]
  · simp [hm]

theorem dispatchOne_fst_toolResult (env : Env) (mcpServer : String) (tc : ToolCall) :
    ∀ e ∈ (dispatchOne env mcpServer tc).1, ∃ nm r, e = Event.toolResult nm r := by
  unfold dispatchOne
  by_cases hm : mcpServer = "aws_terraform" ∧ env.mcpAvailable
  · cases hx : env.exec tc.name tc.args <;> simp [hm, hx]
  · simp [hm]

theorem dispatchOne_fst_ok (env : Env) (tc : ToolCall) (r : ExecResult)
    (hav : env.mcpAvailable = true)
    (hr : env.exec tc.name tc.args = Except.ok r) :
    (dispatchOne env "aws_terraform" tc).1 =
      [Event.toolResult tc.name (callOutcome env "aws_terraform" tc)] := by
  unfold dispatchOne callOutcome
  simp [hav, hr]

theorem dispatchCalls_snd (env : Env) (mcpServer : String) (calls : List ToolCall) :
    (dispatchCalls env mcpServer calls).2 =
      calls.map (fun tc => Message.tool (callOutcome env mcpServer tc) tc.id) := by
  induction calls with
  | nil => rfl
  | cons tc rest ih =>
    simp only [dispatchCalls, List.map_cons]
    rw [ih, dispatchOne_snd]
    simp

theorem dispatchCalls_fst_ok (env : Env) (calls : List ToolCall)
    (hav : env.mcpAvailable = true)
    (hok : ∀ tc ∈ calls, ∃ r, env.exec tc.name tc.args = Except.ok r) :
    (dispatchCalls env "aws_terraform" calls).1 =
      calls.map (fun tc => Event.toolResult tc.name (callOutcome env "aws_terraform" tc)) := by
  induction calls with
  | nil => rfl
  | cons tc rest ih =>
    obtain ⟨r, hr⟩ := hok tc (by simp)
    simp only [dispatchCalls, List.map_cons]
    rw [ih (fun tc h => hok tc (by simp [h])), dispatchOne_fst_ok env tc r hav hr]
    simp

theorem dispatchCalls_fst_toolResult (env : Env) (mcpServer : String)
    (calls : List ToolCall) :
    ∀ e ∈ (dispatchCalls env mcpServer calls).1, ∃ nm r, e = Event.toolResult nm r := by
  induction calls with
  | nil => simp [dispatchCalls]
  | cons tc rest ih =>
    intro e he
    simp only [dispatchCalls, List.mem_append] at he
    rcases he with he | he
    · exact dispatchOne_fst_toolResult env mcpServer tc e he
    · exact ih e he

/-! ## Lemmas about `toolLoop` -/

theorem toolLoop_invocations_le (env : Env) (mcpServer : String) :
    ∀ (fuel : Nat) (history : List Message) (last : ModelResponse)
      (evs : List Event) (count : Nat),
      (toolLoop env mcpServer fuel history last evs count).invocations ≤ count + fuel := by
  intro fuel
  induction fuel with
  | zero => intro history last evs count; simp [toolLoop, LoopOut.invocations]
  | succ n ih =>
    intro history last evs count
    simp only [toolLoop]
    cases hx : env.llm history with
    | error e => simp [LoopOut.invocations]
    | ok response =>
      by_cases hempty : response.tool_calls.isEmpty
      · simp only [hempty, if_true, LoopOut.invocations]; omega
      · simp only [hempty, Bool.false_eq_true, if_false]
        calc (toolLoop env mcpServer n _ response _ (count + 1)).invocations
            ≤ (count + 1) + n := ih _ _ _ _
          _ = count + (n + 1) := by omega

theorem toolLoop_invocations_ge (env : Env) (mcpServer : String) :
    ∀ (fuel : Nat) (history : List Message) (last : ModelResponse)
      (evs : List Event) (count : Nat),
      count ≤ (toolLoop env mcpServer fuel history last evs count).invocations := by
  intro fuel
  induction fuel with
  | zero => intro history last evs count; simp [toolLoop, LoopOut.invocations]
  | succ n ih =>
    intro history last evs count
    simp only [toolLoop]
    cases hx : env.llm history with
    | error e => simp [LoopOut.invocations]
    | ok response =>
      by_cases hempty : response.tool_calls.isEmpty
      · simp only [hempty, if_true, LoopOut.invocations]; omega
      · simp only [hempty, Bool.false_eq_true, if_false]
        calc count ≤ count + 1 := by omega
          _ ≤ _ := ih _ _ _ _

theorem toolLoop_invocations_eq_of_always (env : Env) (mcpServer : String)
    (halways : ∀ h, ∃ r, env.llm h = Except.ok r ∧ r.tool_calls ≠ []) :
    ∀ (fuel : Nat) (history : List Message) (last : ModelResponse)
      (evs : List Event) (count : Nat),
      (toolLoop env mcpServer fuel history last evs count).invocations = count + fuel := by
  intro fuel
  induction fuel with
  | zero => intro history last evs count; simp [toolLoop, LoopOut.invocations]
  | succ n ih =>
    intro history last evs count
    obtain ⟨r, hr, hnt⟩ := halways history
    simp only [toolLoop, hr]
    have hempty : r.tool_calls.isEmpty = false := by
      simpa [List.isEmpty_iff] using hnt
    simp only [hempty, Bool.false_eq_true, if_false]
    rw [ih]
    omega

theorem toolLoop_events_shape (env : Env) (mcpServer : String) :
    ∀ (fuel : Nat) (history : List Message) (last : ModelResponse)
      (evs : List Event) (count : Nat),
      ∃ extra, (toolLoop env mcpServer fuel history last evs count).events = evs ++ extra ∧
        ∀ e ∈ extra, ∃ nm r, e = Event.toolResult nm r := by
  intro fuel
  induction fuel with
  | zero =>
    intro history last evs count
    exact ⟨[], by simp [toolLoop, LoopOut.events], by simp⟩
  | succ n ih =>
    intro history last evs count
    simp only [toolLoop]
    cases hx : env.llm history with
    | error e => exact ⟨[], by simp [LoopOut.events], by simp⟩
    | ok response =>
      by_cases hempty : response.tool_calls.isEmpty
      · simp only [hempty, if_true]
        exact ⟨[], by simp [LoopOut.events], by simp⟩
      · simp only [hempty, Bool.false_eq_true, if_false]
        obtain ⟨extra, hev, hall⟩ := ih (history ++ [Message.ai response.content response.tool_calls] ++ (dispatchCalls env mcpServer response.tool_calls).2) response (evs ++ (dispatchCalls env mcpServer response.tool_calls).1) (count + 1)
        refine ⟨(dispatchCalls env mcpServer response.tool_calls).1 ++ extra, ?_, ?_⟩
        · rw [hev, List.append_assoc]
        · intro e he
          rcases List.mem_append.mp he with he | he
          · exact dispatchCalls_fst_toolResult env mcpServer response.tool_calls e he
          · exact hall e he

theorem toolLoop_history_ext (env : Env) (mcpServer : String) :
    ∀ (fuel : Nat) (history : List Message) (last : ModelResponse)
      (evs : List Event) (count : Nat),
      ∃ tail, (toolLoop env mcpServer fuel history last evs count).history = history ++ tail ∧
        ∀ m ∈ tail, isHumanM m = false := by
  intro fuel
  induction fuel with
  | zero =>
    intro history last evs count
    exact ⟨[], by simp [toolLoop, LoopOut.history], by simp⟩
  | succ n ih =>
    intro history last evs count
    simp only [toolLoop]
    cases hx : env.llm history with
    | error e => exact ⟨[], by simp [LoopOut.history], by simp⟩
    | ok response =>
      by_cases hempty : response.tool_calls.isEmpty
      · simp only [hempty, if_true]
        refine ⟨[Message.ai response.content response.tool_calls], by simp [LoopOut.history], ?_⟩
        intro m hm
        simp only [List.mem_singleton] at hm
        subst hm
        rfl
      · simp only [hempty, Bool.false_eq_true, if_false]
        obtain ⟨tail, hh, hall⟩ := ih (history ++ [Message.ai response.content response.tool_calls] ++ (dispatchCalls env mcpServer response.tool_calls).2) response (evs ++ (dispatchCalls env mcpServer response.tool_calls).1) (count + 1)
        refine ⟨[Message.ai response.content response.tool_calls] ++ (dispatchCalls env mcpServer response.tool_calls).2 ++ tail, ?_, ?_⟩
        · rw [hh]; simp [List.append_assoc]
        · intro m hm
          rcases List.mem_append.mp hm with hm | hm
          · rcases List.mem_append.mp hm with hm | hm
            · simp only [List.mem_singleton] at hm; subst hm; rfl
            · rw [dispatchCalls_snd] at hm
              obtain ⟨tc, _, rfl⟩ := List.mem_map.mp hm
              rfl
          · exact hall m hm

theorem toolLoop_not_failed_of_llm_ok (env : Env) (mcpServer : String)
    (hok : ∀ h, ∃ r, env.llm h = Except.ok r) :
    ∀ (fuel : Nat) (history : List Message) (last : ModelResponse)
      (evs : List Event) (count : Nat),
      (toolLoop env mcpServer fuel history last evs count).isFailed = false := by
  intro fuel
  induction fuel with
  | zero => intro history last evs count; simp [toolLoop, LoopOut.isFailed]
  | succ n ih =>
    intro history last evs count
    obtain ⟨r, hr⟩ := hok history
    simp only [toolLoop, hr]
    by_cases hempty : r.tool_calls.isEmpty
    · simp [hempty, LoopOut.isFailed]
    · simp only [hempty, Bool.false_eq_true, if_false]
      exact ih _ _ _ _

/-! ## Lemmas about chunking and concatenation -/

theorem chunks60_flatten (l : List Char) : (chunks60 l).flatten = l := by
  induction l using chunks60.induct with
  | case1 => simp [chunks60]
  | case2 l hl ih =>
    rw [chunks60]
    simp only [hl, dite_false]
    simp [List.flatten, ih]

theorem chunks60_dropLast_length (l : List Char) :
    ∀ p ∈ (chunks60 l).dropLast, p.length = 60 := by
  induction l using chunks60.induct with
  | case1 => simp [chunks60]
  | case2 l hl ih =>
    rw [chunks60]
    simp only [hl, dite_false]
    intro p hp
    by_cases hd : l.drop 60 = []
    · rw [chunks60, dif_pos hd] at hp
      simp at hp
    · have : chunks60 (l.drop 60) ≠ [] := by
        rw [chunks60, dif_neg hd]; simp
      rw [List.dropLast_cons_of_ne_nil this] at hp
      rcases List.mem_cons.mp hp with rfl | hp
      · have h60 : 60 ≤ l.length := by
          by_contra hlt
          exact hd (List.drop_eq_nil_of_le (by omega))
        simp [List.length_take, Nat.min_eq_left h60]
      · exact ih p hp

theorem chunks60_mem_length (l : List Char) :
    ∀ p ∈ chunks60 l, 0 < p.length ∧ p.length ≤ 60 := by
  induction l using chunks60.induct with
  | case1 => simp [chunks60]
  | case2 l hl ih =>
    rw [chunks60]
    simp only [hl, dite_false]
    intro p hp
    rcases List.mem_cons.mp hp with rfl | hp
    · constructor
      · simp only [List.length_take]
        have : 0 < l.length := List.length_pos.mpr hl
        omega
      · simp [List.length_take]
    · exact ih p hp

theorem concatAll_data (cs : List (List Char)) :
    (concatAll (cs.map List.asString)).data = cs.flatten := by
  induction cs with
  | nil => rfl
  | cons p rest ih =>
    simp only [List.map_cons, concatAll, List.flatten_cons, String.data_append, ← ih]
    rfl

theorem concatAll_chunks60 (s : String) :
    concatAll ((chunks60 s.data).map List.asString) = s := by
  apply String.ext
  rw [concatAll_data, chunks60_flatten]

/-! ## Lemmas about `deltas` and event counting -/

theorem deltas_append (a b : List Event) : deltas (a ++ b) = deltas a ++ deltas b := by
  simp [deltas, List.filterMap_append]

theorem deltas_toolResults (l : List Event)
    (h : ∀ e ∈ l, ∃ nm r, e = Event.toolResult nm r) : deltas l = [] := by
  induction l with
  | nil => rfl
  | cons e rest ih =>
    obtain ⟨nm, r, rfl⟩ := h e (by simp)
    simp only [deltas, List.filterMap_cons]
    exact ih (fun e he => h e (by simp [he]))

theorem deltas_chunkEvents (cs : List (List Char)) :
    deltas (cs.map fun p => Event.textMessageContent p.asString) =
      cs.map List.asString := by
  induction cs with
  | nil => rfl
  | cons p rest ih => simp only [List.map_cons, deltas, List.filterMap_cons] at *; simp [ih]

theorem countP_eq_zero_of_mid (l : List Event) (p : Event → Bool)
    (hp : ∀ e, isMid e = true → p e = false)
    (h : ∀ e ∈ l, isMid e = true) : l.countP p = 0 := by
  rw [List.countP_eq_zero]
  intro e he
  simp [hp e (h e he)]

theorem toolResult_isMid (l : List Event)
    (h : ∀ e ∈ l, ∃ nm r, e = Event.toolResult nm r) : ∀ e ∈ l, isMid e = true := by
  intro e he
  obtain ⟨nm, r, rfl⟩ := h e he
  rfl

/-! ## Lemmas about the no-consecutive-humans invariant -/

theorem noTwoTrue_cons_all_false (x : Bool) (fs : List Bool)
    (hf : ∀ b ∈ fs, b = false) : noTwoTrue (x :: fs) = true := by
  induction fs generalizing x with
  | nil => rfl
  | cons y t ih =>
    have hy : y = false := hf y (by simp)
    subst hy
    simp only [noTwoTrue, Bool.and_false, Bool.not_false, Bool.true_and]
    exact ih false (fun b hb => hf b (by simp [hb]))

theorem noTwoTrue_append_all_false (bs fs : List Bool)
    (hb : noTwoTrue bs = true) (hf : ∀ b ∈ fs, b = false) :
    noTwoTrue (bs ++ fs) = true := by
  induction bs with
  | nil =>
    cases fs with
    | nil => rfl
    | cons y t =>
      have hy : y = false := hf y (by simp)
      subst hy
      exact noTwoTrue_cons_all_false false t (fun b hbm => hf b (by simp [hbm]))
  | cons a bs ih =>
    cases bs with
    | nil =>
      cases fs with
      | nil => exact hb
      | cons y t =>
        have hy : y = false := hf y (by simp)
        subst hy
        simp only [List.singleton_append, List.cons_append, noTwoTrue,
          Bool.and_false, Bool.not_false, Bool.true_and]
        exact noTwoTrue_cons_all_false false t (fun b hbm => hf b (by simp [hbm]))
    | cons a2 bs2 =>
      simp only [noTwoTrue, Bool.and_eq_true] at hb
      simp only [List.cons_append, noTwoTrue, Bool.and_eq_true]
      exact ⟨hb.1, by simpa using ih hb.2⟩

theorem noTwoTrue_concat_pair (pre : List Bool) :
    noTwoTrue (pre ++ [true, true]) = false := by
  induction pre with
  | nil => rfl
  | cons a pre ih =>
    cases pre with
    | nil => simp [noTwoTrue]
    | cons b pre2 =>
      simp only [List.cons_append, noTwoTrue, Bool.and_eq_true] at *
      simp [ih]

theorem noTwoTrue_append_true (bs : List Bool)
    (hb : noTwoTrue bs = true) (hl : bs.getLast? ≠ some true) :
    noTwoTrue (bs ++ [true]) = true := by
  induction bs with
  | nil => rfl
  | cons a t ih =>
    cases t with
    | nil =>
      cases a
      · rfl
      · exact absurd rfl hl
    | cons b t2 =>
      simp only [noTwoTrue, Bool.and_eq_true] at hb
      have hl2 : (b :: t2).getLast? ≠ some true := by
        rwa [List.getLast?_cons_cons] at hl
      simp only [List.cons_append, noTwoTrue, Bool.and_eq_true]
      exact ⟨hb.1, by simpa using ih hb.2 hl2⟩

theorem exists_concat_of_lastIsHuman (history : List Message)
    (hl : lastIsHuman history = true) :
    ∃ init c, history = init ++ [Message.human c] := by
  rcases List.eq_nil_or_concat history with rfl | ⟨init, a, rfl⟩
  · simp [lastIsHuman] at hl
  · cases a with
    | human c => exact ⟨init, c, by simp⟩
    | system c => simp [lastIsHuman, List.getLast?_concat] at hl
    | ai c tcs => simp [lastIsHuman, List.getLast?_concat] at hl
    | tool r cid => simp [lastIsHuman, List.getLast?_concat] at hl

theorem mapHuman_getLast?_of_not_lastIsHuman (history : List Message)
    (hl : lastIsHuman history = false) :
    (history.map isHumanM).getLast? ≠ some true := by
  rw [List.getLast?_map]
  unfold lastIsHuman at hl
  cases hg : history.getLast? with
  | none => simp [hg]
  | some m =>
    cases m with
    | human c => rw [hg] at hl; simp at hl
    | system c => simp [hg, isHumanM]
    | ai c tcs => simp [hg, isHumanM]
    | tool r cid => simp [hg, isHumanM]

theorem submitUser_noConsec (history : List Message) (msg : String)
    (h : noConsecutiveHumans history = true) :
    noConsecutiveHumans (submitUser history msg) = true := by
  by_cases hl : lastIsHuman history = true
  · obtain ⟨init, c, rfl⟩ := exists_concat_of_lastIsHuman history hl
    unfold submitUser
    simp only [hl, if_true]
    rw [List.dropLast_concat]
    unfold noConsecutiveHumans at *
    simp only [List.map_append, List.map_cons, List.map_nil] at *
    simpa [isHumanM] using h
  · rw [Bool.not_eq_true] at hl
    unfold submitUser
    simp only [hl, Bool.false_eq_true, if_false]
    unfold noConsecutiveHumans at *
    rw [List.map_append]
    simp only [List.map_cons, List.map_nil]
    exact noTwoTrue_append_true _ h (mapHuman_getLast?_of_not_lastIsHuman history hl)

theorem seedHistory_noConsec (history : List Message)
    (h : noConsecutiveHumans history = true) :
    noConsecutiveHumans (seedHistory history) = true := by
  unfold seedHistory
  by_cases he : history.isEmpty
  · simp [he]; rfl
  · simpa [he] using h

theorem append_nonhuman_noConsec (history tail : List Message)
    (h : noConsecutiveHumans history = true)
    (ht : ∀ m ∈ tail, isHumanM m = false) :
    noConsecutiveHumans (history ++ tail) = true := by
  unfold noConsecutiveHumans at *
  rw [List.map_append]
  apply noTwoTrue_append_all_false _ _ h
  intro b hb
  obtain ⟨m, hm, rfl⟩ := List.mem_map.mp hb
  exact ht m hm

/-! ## Remaining event-classification helpers -/

theorem isMid_not_terminal (e : Event) (h : isMid e = true) : isTerminal e = false := by
  cases e <;> first | rfl | simp [isMid] at h

theorem isMid_not_runError (e : Event) (h : isMid e = true) : isRunError e = false := by
  cases e <;> first | rfl | simp [isMid] at h

theorem isMid_not_runFinished (e : Event) (h : isMid e = true) : isRunFinished e = false := by
  cases e <;> first | rfl | simp [isMid] at h

theorem noteEvents_mid (payload : RunRequest) :
    ∀ e ∈ noteEvents payload, isMid e = true := by
  unfold noteEvents
  split
  · intro e he
    simp only [List.mem_singleton] at he
    subst he
    rfl
  · simp

theorem toolLoop_invocations_succ_of_ok (env : Env) (mcpServer : String)
    (hok : ∀ h, ∃ r, env.llm h = Except.ok r) :
    ∀ (fuel : Nat) (history : List Message) (last : ModelResponse)
      (evs : List Event) (count : Nat),
      count + 1 ≤ (toolLoop env mcpServer (fuel + 1) history last evs count).invocations := by
  intro fuel history last evs count
  obtain ⟨r, hr⟩ := hok history
  simp only [toolLoop, hr]
  by_cases hempty : r.tool_calls.isEmpty
  · simp [hempty, LoopOut.invocations]
  · simp only [hempty, Bool.false_eq_true, if_false]
    have := toolLoop_invocations_ge env mcpServer fuel
      (history ++ [Message.ai r.content r.tool_calls] ++ (dispatchCalls env mcpServer r.tool_calls).2)
      r (evs ++ (dispatchCalls env mcpServer r.tool_calls).1) (count + 1)
    omega

/-! ## Claim theorems -/

/-- C1: the orchestration loop always terminates (`toolLoop` is a total
function, recursing on the remaining iteration budget), every run performs
at most 5 `llm.invoke` calls, and with a model backend that returns tool
calls on every invocation exactly 5 invocations happen before the cap
forces termination — a 6th invocation never occurs. -/
theorem iteration_bound_c1 (env : Env) (mcpServer : String)
    (history : List Message) (last : ModelResponse) :
    (toolLoop env mcpServer 5 history last [] 0).invocations ≤ 5 ∧
    ((∀ h, ∃ r, env.llm h = Except.ok r ∧ r.tool_calls ≠ []) →
      (toolLoop env mcpServer 5 history last [] 0).invocations = 5) := by
  constructor
  · simpa using toolLoop_invocations_le env mcpServer 5 history last [] 0
  · intro halways
    simpa using toolLoop_invocations_eq_of_always env mcpServer halways 5 history last [] 0

/-- Witness for C1: the concrete always-tool-calling backend performs
exactly 5 invocations. -/
theorem iteration_bound_c1_witness :
    (toolLoop cEnvAlways "aws_terraform" 5 [] default [] 0).invocations = 5 :=
  (iteration_bound_c1 cEnvAlways "aws_terraform" [] default).2
    (fun _ => ⟨⟨"", [cCall]⟩, rfl, by decide⟩)

/-- C2 counterexample: with the AWS Terraform MCP server selected and a
tool execution that raises, a model response with k = 1 tool calls yields 0
`TOOL_RESULT` events (the claim requires exactly 1), although 1 ToolResult
message is still appended. -/
theorem tool_events_c2_counterexample :
    (dispatchCalls cEnvBoom "aws_terraform" [cCall]).1.length = 0 ∧
    (dispatchCalls cEnvBoom "aws_terraform" [cCall]).2.length = 1 ∧
    ¬ (dispatchCalls cEnvBoom "aws_terraform" [cCall]).1.length = [cCall].length := by
  refine ⟨by decide, by decide, by decide⟩

/-- C2 (amended): a batch of k tool calls always appends exactly k
ToolResult messages, sequentially in the order the model emitted the calls,
each carrying the call id of its `ToolCall`; and exactly k `TOOL_RESULT`
events are emitted, in that same order, provided the `aws_terraform` MCP
server is selected and available and no tool execution raises (a raised
execution or a different MCP selection appends its message without an
event). -/
theorem tool_events_c2 (env : Env) (mcpServer : String) (calls : List ToolCall) :
    (dispatchCalls env mcpServer calls).2 =
      calls.map (fun tc => Message.tool (callOutcome env mcpServer tc) tc.id) ∧
    ((mcpServer = "aws_terraform" ∧ env.mcpAvailable = true ∧
        ∀ tc ∈ calls, ∃ r, env.exec tc.name tc.args = Except.ok r) →
      (dispatchCalls env mcpServer calls).1 =
        calls.map (fun tc => Event.toolResult tc.name (callOutcome env mcpServer tc))) := by
  refine ⟨dispatchCalls_snd env mcpServer calls, ?_⟩
  rintro ⟨rfl, hav, hok⟩
  exact dispatchCalls_fst_ok env calls hav hok

/-- Witness for C2 at a concrete two-call batch with a succeeding
executor. -/
theorem tool_events_c2_witness :
    (dispatchCalls cEnvAlways "aws_terraform" [cCall, cUnknownCall]).1 =
      [cCall, cUnknownCall].map
        (fun tc => Event.toolResult tc.name (callOutcome cEnvAlways "aws_terraform" tc)) :=
  (tool_events_c2 cEnvAlways "aws_terraform" [cCall, cUnknownCall]).2
    ⟨rfl, rfl, fun tc _ => ⟨⟨true, none, tc.name ++ ":" ++ tc.args⟩, rfl⟩⟩

/-- C3 counterexample: the model requests a tool call on the first
invocation and then returns an empty, tool-call-free final response. The
immediately preceding model response had tool calls, so the claim requires
the `I have initiated...` fallback, but the code checks the final
response's own (empty) tool-call list and emits `No response generated.`. -/
theorem final_text_c3_counterexample :
    cEnvPrior.llm [] = Except.ok ⟨"", [cCall]⟩ ∧
    (toolLoop cEnvPrior "aws_terraform" 5 [] default [] 0).finalResp = ⟨"", []⟩ ∧
    finalText (toolLoop cEnvPrior "aws_terraform" 5 [] default [] 0).finalResp =
      "No response generated." ∧
    "No response generated." ≠ "I have initiated the infrastructure changes as requested." := by
  refine ⟨rfl, by decide, by decide, by decide⟩

/-- C3 (amended): when the final response's text is empty or
whitespace-only, the emitted final text is
`I have initiated the infrastructure changes as requested.` iff the final
response itself contains tool calls (the case in which the iteration cap
forced termination), and `No response generated.` when it does not;
text with non-whitespace content is emitted verbatim. -/
theorem final_text_c3 (resp : ModelResponse) :
    (pyStripEmpty resp.content = false → finalText resp = resp.content) ∧
    (pyStripEmpty resp.content = true →
      ((finalText resp = "I have initiated the infrastructure changes as requested." ↔
          resp.tool_calls ≠ []) ∧
        (resp.tool_calls = [] → finalText resp = "No response generated."))) := by
  obtain ⟨content, tcs⟩ := resp
  constructor
  · intro h
    unfold finalText
    simp [h]
  · intro h
    cases tcs with
    | nil =>
      have hft : finalText ⟨content, []⟩ = "No response generated." := by
        unfold finalText
        simp [h]
      rw [hft]
      exact ⟨⟨fun heq => absurd heq (by decide), fun hne => absurd rfl hne⟩, fun _ => rfl⟩
    | cons tc rest =>
      have hft : finalText ⟨content, tc :: rest⟩ =
          "I have initiated the infrastructure changes as requested." := by
        unfold finalText
        simp [h]
      rw [hft]
      exact ⟨⟨fun _ => by simp, fun _ => rfl⟩, fun hc => by simp at hc⟩

/-- Witness for C3 at a whitespace-only final response that still carries a
tool call (the cap-exit case). -/
theorem final_text_c3_witness :
    finalText ⟨" ", [cCall]⟩ =
      "I have initiated the infrastructure changes as requested." :=
  ((final_text_c3 ⟨" ", [cCall]⟩).2 (by decide)).1.mpr (by decide)

/-- C4: submitting a user message when the history ends in a `HumanMessage`
overwrites that message's content (history length unchanged), otherwise
appends a new `HumanMessage`; the submission step (seeding plus
`submitUser`) and the tool-calling loop both preserve the
no-two-consecutive-`HumanMessage`s invariant, and a history satisfying that
invariant never contains — in particular never ends in — two consecutive
user messages. -/
theorem user_message_policy_c4 (history : List Message) (msg : String) :
    (lastIsHuman history = true →
      submitUser history msg = history.dropLast ++ [Message.human msg] ∧
      (submitUser history msg).length = history.length) ∧
    (lastIsHuman history = false →
      submitUser history msg = history ++ [Message.human msg]) ∧
    (noConsecutiveHumans history = true →
      noConsecutiveHumans (submitUser (seedHistory history) msg) = true) ∧
    (∀ env mcpServer fuel last evs count, noConsecutiveHumans history = true →
      noConsecutiveHumans ((toolLoop env mcpServer fuel history last evs count).history) = true) ∧
    (noConsecutiveHumans history = true →
      ∀ pre c1 c2, history ≠ pre ++ [Message.human c1, Message.human c2]) := by
  refine ⟨?_, ?_, ?_, ?_, ?_⟩
  · intro hl
    obtain ⟨init, c, rfl⟩ := exists_concat_of_lastIsHuman history hl
    constructor
    · unfold submitUser
      simp [hl]
    · unfold submitUser
      simp [hl, List.dropLast_concat]
  · intro hl
    unfold submitUser
    simp [hl]
  · intro h
    exact submitUser_noConsec _ msg (seedHistory_noConsec history h)
  · intro env mcpServer fuel last evs count h
    obtain ⟨tail, hh, hall⟩ := toolLoop_history_ext env mcpServer fuel history last evs count
    rw [hh]
    exact append_nonhuman_noConsec history tail h hall
  · intro h pre c1 c2 heq
    subst heq
    unfold noConsecutiveHumans at h
    rw [List.map_append] at h
    simp only [List.map_cons, List.map_nil, isHumanM] at h
    rw [noTwoTrue_concat_pair] at h
    exact Bool.false_ne_true h

/-- Witness for C4: a retry overwrites the pending user message. -/
theorem user_message_policy_c4_witness :
    submitUser [Message.system "s", Message.human "hi"] "hello" =
      [Message.system "s", Message.human "hello"] := by
  have h := (user_message_policy_c4 [Message.system "s", Message.human "hi"] "hello").1
    (by decide)
  rw [h.1]
  rfl

/-- C5: `execute_tool` on a tool name absent from the registry (with an
authenticated AWS session) returns `success := false` with an error
description; dispatched through the loop, that result is appended as a
ToolResult message and streamed like any other outcome; a run never aborts
because of a tool outcome (only an `llm.invoke` failure yields `failed`);
and after a batch of tool calls the loop proceeds to the next model
invocation. -/
theorem unknown_tool_c5 (rbac : Rbac) (handler : String → String → ExecResult)
    (name params : String)
    (hauth : rbac.identity = true ∨ rbac.rbacInitOk = true)
    (hunknown : knownTools.contains name = false) :
    execute_tool rbac handler name params =
      ⟨false, some ("Unknown tool: " ++ name), ""⟩ ∧
    (∀ (llm : List Message → Except String ModelResponse) (tc : ToolCall),
      tc.name = name →
      dispatchOne ⟨llm, true, fun n p => Except.ok (execute_tool rbac handler n p)⟩
          "aws_terraform" tc =
        ([Event.toolResult tc.name ⟨false, some ("Unknown tool: " ++ name), ""⟩],
         [Message.tool ⟨false, some ("Unknown tool: " ++ name), ""⟩ tc.id])) ∧
    (∀ env mcpServer fuel history last evs count,
      (∀ h, ∃ r, env.llm h = Except.ok r) →
      (toolLoop env mcpServer fuel history last evs count).isFailed = false) ∧
    (∀ env mcpServer fuel history last evs count r,
      (∀ h, ∃ r', env.llm h = Except.ok r') →
      env.llm history = Except.ok r → r.tool_calls ≠ [] →
      count + 2 ≤ (toolLoop env mcpServer (fuel + 2) history last evs count).invocations) := by
  have hcond : (!rbac.identity && !rbac.rbacInitOk) = false := by
    rcases hauth with h | h <;> simp [h]
  have hres : ∀ q, execute_tool rbac handler name q =
      ⟨false, some ("Unknown tool: " ++ name), ""⟩ := by
    intro q
    unfold execute_tool
    rw [hcond]
    simp only [Bool.false_eq_true, if_false, hunknown]
  refine ⟨hres params, ?_, ?_, ?_⟩
  · intro llm tc htc
    subst htc
    unfold dispatchOne
    simp [hres tc.args]
  · intro env mcpServer fuel history last evs count hok
    exact toolLoop_not_failed_of_llm_ok env mcpServer hok fuel history last evs count
  · intro env mcpServer fuel history last evs count r hok hr hnt
    have hempty : r.tool_calls.isEmpty = false := by
      simpa [List.isEmpty_iff] using hnt
    have : fuel + 2 = (fuel + 1) + 1 := by omega
    rw [this]
    simp only [toolLoop, hr, hempty, Bool.false_eq_true, if_false]
    exact toolLoop_invocations_succ_of_ok env mcpServer hok fuel _ r _ (count + 1)

/-- Witness for C5 at a concrete unknown tool name and authenticated
session. -/
theorem unknown_tool_c5_witness :
    execute_tool ⟨true, true⟩ (fun _ _ => ⟨true, none, "ok"⟩) "delete_everything" "" =
      ⟨false, some ("Unknown tool: " ++ "delete_everything"), ""⟩ :=
  (unknown_tool_c5 ⟨true, true⟩ (fun _ _ => ⟨true, none, "ok"⟩) "delete_everything" ""
    (Or.inl rfl) (by decide)).1

/-- C6: a request with an empty or whitespace-only message, or an
unsupported provider, is rejected synchronously with HTTP 400 before any
stream is opened, and the conversation store of every thread is left
untouched — no system-prompt seeding and no user-message append or
overwrite. -/
theorem validation_c6 (store : String → List Message) (payload : RunRequest)
    (freshId : String)
    (h : pyStripEmpty payload.message = true ∨
      SUPPORTED_LLMS.contains payload.provider = false) :
    (run_agent store payload freshId).store = store ∧
    ∃ d, (run_agent store payload freshId).status = Except.error (400, d) := by
  by_cases hm : pyStripEmpty payload.message = true
  · constructor
    · unfold run_agent
      simp [hm]
    · refine ⟨"Message cannot be empty", ?_⟩
      unfold run_agent
      simp [hm]
  · have hp : payload.provider ∉ SUPPORTED_LLMS := by
      rcases h with h | h
      · exact absurd h hm
      · simpa using h
    rw [Bool.not_eq_true] at hm
    constructor
    · unfold run_agent
      simp [hm, hp]
    · refine ⟨"Unsupported provider", ?_⟩
      unfold run_agent
      simp [hm, hp]

/-- Witness for C6 at a whitespace-only message. -/
theorem validation_c6_witness :
    (run_agent (fun _ => []) cReqBlank "uuid-1").store = (fun _ => ([] : List Message)) ∧
    ∃ d, (run_agent (fun _ => []) cReqBlank "uuid-1").status = Except.error (400, d) :=
  validation_c6 (fun _ => []) cReqBlank "uuid-1" (Or.inl (by decide))

/-- C7: the event stream of every run has the fixed shape `RunStarted`,
`MessageStarted`, zero or more interleaved content chunks and tool results,
`MessageEnded`, `RunFinished` — or that shape truncated after the
interleaved section by a single `RunError` — and in either case contains
exactly one terminal event, so the stream is never truncated without one. -/
theorem event_shape_c7 (env : Env) (payload : RunRequest) (history : List Message) :
    ((∃ mids, (∀ e ∈ mids, isMid e = true) ∧
        (stream env payload history).1 =
          [Event.runStarted, Event.textMessageStart] ++ mids ++
            [Event.textMessageEnd, Event.runFinished]) ∨
      (∃ mids msg, (∀ e ∈ mids, isMid e = true) ∧
        (stream env payload history).1 =
          [Event.runStarted, Event.textMessageStart] ++ mids ++ [Event.runError msg])) ∧
    (stream env payload history).1.countP (fun e => isTerminal e) = 1 := by
  obtain ⟨extra, hev, hall⟩ :=
    toolLoop_events_shape env payload.mcpServer 5 history default [] 0
  have hnote := noteEvents_mid payload
  cases hres : toolLoop env payload.mcpServer 5 history default [] 0 with
  | done evs hist resp n =>
    rw [hres] at hev
    simp only [LoopOut.events, List.nil_append] at hev
    subst hev
    have hchunk : ∀ e ∈ (chunks60 (finalText resp).data).map
        (fun p => Event.textMessageContent p.asString), isMid e = true := by
      intro e he
      obtain ⟨p, _, rfl⟩ := List.mem_map.mp he
      rfl
    have hmids : ∀ e ∈ noteEvents payload ++ evs ++
        (chunks60 (finalText resp).data).map (fun p => Event.textMessageContent p.asString),
        isMid e = true := by
      intro e he
      rcases List.mem_append.mp he with he | he
      · rcases List.mem_append.mp he with he | he
        · exact hnote e he
        · exact toolResult_isMid evs hall e he
      · exact hchunk e he
    constructor
    · left
      refine ⟨noteEvents payload ++ evs ++
        (chunks60 (finalText resp).data).map (fun p => Event.textMessageContent p.asString),
        hmids, ?_⟩
      simp only [stream, hres]
      simp [List.append_assoc]
    · simp only [stream, hres]
      have h1 : (noteEvents payload).countP (fun e => isTerminal e) = 0 :=
        countP_eq_zero_of_mid _ _ isMid_not_terminal hnote
      have h2 : evs.countP (fun e => isTerminal e) = 0 :=
        countP_eq_zero_of_mid _ _ isMid_not_terminal (toolResult_isMid evs hall)
      have h3 : ((chunks60 (finalText resp).data).map
          (fun p => Event.textMessageContent p.asString)).countP
            (fun e => isTerminal e) = 0 :=
        countP_eq_zero_of_mid _ _ isMid_not_terminal hchunk
      have h0 : List.countP (fun e => isTerminal e)
          [Event.runStarted, Event.textMessageStart] = 0 := rfl
      have h4 : List.countP (fun e => isTerminal e)
          [Event.textMessageEnd, Event.runFinished] = 1 := rfl
      simp only [List.countP_append, h0, h1, h2, h3, h4]
  | failed evs hist n err =>
    rw [hres] at hev
    simp only [LoopOut.events, List.nil_append] at hev
    subst hev
    have hmids : ∀ e ∈ noteEvents payload ++ evs, isMid e = true := by
      intro e he
      rcases List.mem_append.mp he with he | he
      · exact hnote e he
      · exact toolResult_isMid evs hall e he
    constructor
    · right
      refine ⟨noteEvents payload ++ evs, err, hmids, ?_⟩
      simp only [stream, hres]
      simp [List.append_assoc]
    · simp only [stream, hres]
      have h1 : (noteEvents payload).countP (fun e => isTerminal e) = 0 :=
        countP_eq_zero_of_mid _ _ isMid_not_terminal hnote
      have h2 : evs.countP (fun e => isTerminal e) = 0 :=
        countP_eq_zero_of_mid _ _ isMid_not_terminal (toolResult_isMid evs hall)
      have h0 : List.countP (fun e => isTerminal e)
          [Event.runStarted, Event.textMessageStart] = 0 := rfl
      have h4 : List.countP (fun e => isTerminal e) [Event.runError err] = 1 := rfl
      simp only [List.countP_append, h0, h1, h2, h4]

set_option maxRecDepth 8000 in
/-- C8 counterexample: a Perplexity run with an MCP server selected
completes normally (ends in `RunFinished`) but prepends the advisory note
chunk, so the concatenation of all `TEXT_MESSAGE_CONTENT` deltas is the
note followed by the final text `Done.`, not the final text itself. -/
theorem chunk_concat_c8_counterexample :
    (stream cEnvDone cReqPerplexity []).1 =
      [Event.runStarted, Event.textMessageStart,
       Event.textMessageContent perplexityNote,
       Event.textMessageContent "Done.",
       Event.textMessageEnd, Event.runFinished] ∧
    finalText ⟨"Done.", []⟩ = "Done." ∧
    concatAll (deltas (stream cEnvDone cReqPerplexity []).1) ≠ "Done." := by
  have hloop : toolLoop cEnvDone cReqPerplexity.mcpServer 5 [] default [] 0 =
      LoopOut.done [] [Message.ai "Done." []] ⟨"Done.", []⟩ 1 := by decide
  have h1 : (finalText ⟨"Done.", []⟩).data = "Done.".data := by decide
  have hch : chunks60 (finalText ⟨"Done.", []⟩).data = ["Done.".data] := by
    rw [h1, chunks60, dif_neg (by decide : ¬("Done.".data : List Char) = [])]
    have h2 : ("Done.".data : List Char).drop 60 = [] := by decide
    have h3 : ("Done.".data : List Char).take 60 = "Done.".data := by decide
    rw [h2, h3, chunks60]
    simp
  have hevents : (stream cEnvDone cReqPerplexity []).1 =
      [Event.runStarted, Event.textMessageStart,
       Event.textMessageContent perplexityNote,
       Event.textMessageContent "Done.",
       Event.textMessageEnd, Event.runFinished] := by
    simp only [stream, hloop]
    rw [hch]
    have hnote : noteEvents cReqPerplexity = [Event.textMessageContent perplexityNote] := by
      decide
    have hd : ("Done.".data : List Char).asString = "Done." := by decide
    simp [hnote, hd]
  refine ⟨hevents, by decide, ?_⟩
  rw [hevents]
  decide

/-- C8 (amended): for every run that completes normally and is not a
Perplexity-with-MCP run (which additionally prepends a fixed advisory
chunk), concatenating the `delta` fields of all `TEXT_MESSAGE_CONTENT`
events in emission order reconstructs exactly the final response text, and
the chunks split that text into successive pieces of exactly 60 characters,
the last piece possibly shorter but never empty. -/
theorem chunk_concat_c8 (env : Env) (payload : RunRequest) (history : List Message)
    (evs : List Event) (hist : List Message) (resp : ModelResponse) (n : Nat)
    (hnote : ¬(payload.provider = "perplexity" ∧ payload.mcpServer ≠ "none"))
    (hdone : toolLoop env payload.mcpServer 5 history default [] 0 =
      LoopOut.done evs hist resp n) :
    concatAll (deltas (stream env payload history).1) = finalText resp ∧
    (∀ p ∈ (chunks60 (finalText resp).data).dropLast, p.length = 60) ∧
    (∀ p ∈ chunks60 (finalText resp).data, 0 < p.length ∧ p.length ≤ 60) := by
  refine ⟨?_, chunks60_dropLast_length _, chunks60_mem_length _⟩
  obtain ⟨extra, hev, hall⟩ :=
    toolLoop_events_shape env payload.mcpServer 5 history default [] 0
  rw [hdone] at hev
  simp only [LoopOut.events, List.nil_append] at hev
  subst hev
  have hn : noteEvents payload = [] := by
    unfold noteEvents
    rw [if_neg hnote]
  simp only [stream, hdone, hn]
  rw [deltas_append, deltas_append, deltas_append]
  rw [deltas_toolResults evs hall, deltas_chunkEvents]
  have hpre : deltas ([Event.runStarted, Event.textMessageStart] ++ []) = [] := rfl
  rw [hpre]
  have hend : deltas [Event.textMessageEnd, Event.runFinished] = [] := rfl
  rw [hend]
  simp only [List.nil_append, List.append_nil]
  exact concatAll_chunks60 (finalText resp)

/-- Witness for C8 at a run that immediately answers `Done.`. -/
theorem chunk_concat_c8_witness :
    concatAll (deltas (stream cEnvDone cReq []).1) = finalText ⟨"Done.", []⟩ :=
  (chunk_concat_c8 cEnvDone cReq [] [] [Message.ai "Done." []] ⟨"Done.", []⟩ 1
    (by decide) (by decide)).1

/-- C9: if the model backend raises on an invocation (the loop ends in the
`failed` state), the run emits exactly one `RunError` event and no
`RunFinished`, and the history appended so far — in particular whatever the
run started from, such as the seeded system prompt and the user message —
is retained, not rolled back: the final history extends the initial one. -/
theorem model_failure_c9 (env : Env) (payload : RunRequest) (history : List Message)
    (hfail : (toolLoop env payload.mcpServer 5 history default [] 0).isFailed = true) :
    (stream env payload history).1.countP (fun e => isRunError e) = 1 ∧
    (stream env payload history).1.countP (fun e => isRunFinished e) = 0 ∧
    ∃ tail, (stream env payload history).2 = history ++ tail := by
  obtain ⟨extra, hev, hall⟩ :=
    toolLoop_events_shape env payload.mcpServer 5 history default [] 0
  obtain ⟨tail, hh, _⟩ :=
    toolLoop_history_ext env payload.mcpServer 5 history default [] 0
  have hnote := noteEvents_mid payload
  cases hres : toolLoop env payload.mcpServer 5 history default [] 0 with
  | done evs hist resp n =>
    rw [hres] at hfail
    simp [LoopOut.isFailed] at hfail
  | failed evs hist n err =>
    rw [hres] at hev hh
    simp only [LoopOut.events, List.nil_append] at hev
    simp only [LoopOut.history] at hh
    subst hev
    have h1e : (noteEvents payload).countP (fun e => isRunError e) = 0 :=
      countP_eq_zero_of_mid _ _ isMid_not_runError hnote
    have h2e : evs.countP (fun e => isRunError e) = 0 :=
      countP_eq_zero_of_mid _ _ isMid_not_runError (toolResult_isMid evs hall)
    have h1f : (noteEvents payload).countP (fun e => isRunFinished e) = 0 :=
      countP_eq_zero_of_mid _ _ isMid_not_runFinished hnote
    have h2f : evs.countP (fun e => isRunFinished e) = 0 :=
      countP_eq_zero_of_mid _ _ isMid_not_runFinished (toolResult_isMid evs hall)
    have h0e : List.countP (fun e => isRunError e)
        [Event.runStarted, Event.textMessageStart] = 0 := rfl
    have h4e : List.countP (fun e => isRunError e) [Event.runError err] = 1 := rfl
    have h0f : List.countP (fun e => isRunFinished e)
        [Event.runStarted, Event.textMessageStart] = 0 := rfl
    have h4f : List.countP (fun e => isRunFinished e) [Event.runError err] = 0 := rfl
    refine ⟨?_, ?_, tail, ?_⟩
    · simp only [stream, hres]
      simp only [List.countP_append, h0e, h1e, h2e, h4e]
    · simp only [stream, hres]
      simp only [List.countP_append, h0f, h1f, h2f, h4f]
    · simp only [stream, hres]
      exact hh

/-- Witness for C9 at a backend that raises on the first invocation. -/
theorem model_failure_c9_witness :
    (stream cEnvFail cReq []).1.countP (fun e => isRunError e) = 1 ∧
    (stream cEnvFail cReq []).1.countP (fun e => isRunFinished e) = 0 ∧
    ∃ tail, (stream cEnvFail cReq []).2 = [] ++ tail :=
  model_failure_c9 cEnvFail cReq [] (by decide)

/-- C10: a request whose `threadId` is the empty string uses the freshly
drawn UUID as its thread identifier: the run is accepted under that id, its
history is created anew — seeded with the system prompt followed by the new
user message — and no other thread's history is read or modified, so two
empty-`threadId` requests drawing distinct fresh UUIDs never share
history. -/
theorem fresh_thread_c10 (store : String → List Message) (payload : RunRequest)
    (freshId : String)
    (hempty : payload.threadId = "")
    (hmsg : pyStripEmpty payload.message = false)
    (hprov : SUPPORTED_LLMS.contains payload.provider = true)
    (hfresh : store freshId = []) :
    (run_agent store payload freshId).status = Except.ok freshId ∧
    (run_agent store payload freshId).store freshId =
      [Message.system systemPrompt, Message.human payload.message] ∧
    ∀ t, t ≠ freshId → (run_agent store payload freshId).store t = store t := by
  have hprov2 : payload.provider ∈ SUPPORTED_LLMS := by simpa using hprov
  have hseed : seedHistory (store freshId) = [Message.system systemPrompt] := by
    unfold seedHistory
    simp [hfresh]
  have hsub : submitUser [Message.system systemPrompt] payload.message =
      [Message.system systemPrompt, Message.human payload.message] := by
    unfold submitUser lastIsHuman
    simp
  refine ⟨?_, ?_, ?_⟩
  · unfold run_agent
    simp [hmsg, hprov2, hempty]
  · unfold run_agent
    simp [hmsg, hprov2, hempty, hseed, hsub]
  · intro t ht
    unfold run_agent
    simp [hmsg, hprov2, hempty, ht]

/-- Witness for C10 at a concrete empty-`threadId` request and an empty
store. -/
theorem fresh_thread_c10_witness :
    (run_agent (fun _ => []) cReqNewThread "uuid-42").status = Except.ok "uuid-42" ∧
    (run_agent (fun _ => []) cReqNewThread "uuid-42").store "uuid-42" =
      [Message.system systemPrompt, Message.human cReqNewThread.message] ∧
    ∀ t, t ≠ "uuid-42" →
      (run_agent (fun _ => []) cReqNewThread "uuid-42").store t = [] :=
  fresh_thread_c10 (fun _ => []) cReqNewThread "uuid-42" rfl (by decide) (by decide) rfl

end Agui
